import Mathlib

/-!
Shallow embedding of the stock recalculation engine defined in
supabase/migrations/20251021044834 (PL/pgSQL functions
trigger_cascade_recalc and cascade_recalc_stock, trigger
trigger_recalc_on_event_change).

Modelling conventions:
* a DATE is a day number (Nat); the SQL arithmetic date + INTERVAL 1 day /
  date - INTERVAL 1 day becomes Nat addition / subtraction;
* the opaque uuid columns location_id and phone_model_id are Nat
  identifiers;
* the nullable TEXT column imei of stock_events is an Option String;
* the stock_entries table is a List StockEntry, at most one live row per
  key (date, location_id, phone_model_id, imei), read through find?
  (the SQL SELECT ... LIMIT 1) and written through an upsert mirroring
  INSERT ... ON CONFLICT DO UPDATE;
* CURRENT_DATE is an explicit parameter named today where it occurs;
* the audit columns created_at / updated_at are not modelled: no claim
  concerns them and the engine never reads them back.
-/

/-- The event_type values recognised by cascade_recalc_stock and the UI. -/
inductive EventType where
  | masuk
  | laku
  | retur_in
  | retur_out
  | transfer_in
  | transfer_out
  | koreksi
  | koreksi_pagi
deriving DecidableEq

/-- A row of stock_events (the columns the engine reads). -/
structure StockEvent where
  date : Nat
  location_id : Nat
  phone_model_id : Nat
  imei : Option String
  event_type : EventType
  qty : Int
deriving DecidableEq

/-- A row of stock_entries (the columns the engine reads or writes). -/
structure StockEntry where
  date : Nat
  location_id : Nat
  phone_model_id : Nat
  imei : String
  morning_stock : Int
  incoming : Int
  sold : Int
  returns : Int
  adjustment : Int
  night_stock : Int
deriving DecidableEq

/-- One (location_id, phone_model_id, imei) combination of the
SELECT DISTINCT driving the outer loop of cascade_recalc_stock. -/
structure UnitKey where
  location_id : Nat
  phone_model_id : Nat
  imei : String
deriving DecidableEq

/-- The conflict key of stock_entries: (date, location_id, phone_model_id, imei). -/
def entryKey (e : StockEntry) : Nat × Nat × Nat × String :=
  (e.date, e.location_id, e.phone_model_id, e.imei)

/-- The conflict key a unit's row for day d would carry. -/
def unitDayKey (d : Nat) (u : UnitKey) : Nat × Nat × Nat × String :=
  (d, u.location_id, u.phone_model_id, u.imei)

/-- SELECT ... FROM stock_entries WHERE key = t LIMIT 1. -/
def lookupKey (st : List StockEntry) (t : Nat × Nat × Nat × String) : Option StockEntry :=
  st.find? (fun e => decide (entryKey e = t))

/-- Row of stock_entries for (day d, unit u), if any. -/
def lookupEntry (st : List StockEntry) (d : Nat) (u : UnitKey) : Option StockEntry :=
  lookupKey st (unitDayKey d u)

/-- INSERT INTO stock_entries ... ON CONFLICT (date, location_id,
phone_model_id, imei) DO UPDATE SET (all derived columns): overwrite the
row with the conflicting key when one exists, append otherwise. -/
def upsertEntry (st : List StockEntry) (r : StockEntry) : List StockEntry :=
  if st.any (fun e => decide (entryKey e = entryKey r)) then
    st.map (fun e => if entryKey e = entryKey r then r else e)
  else
    st ++ [r]

/-- The WHERE clause of the SELECT DISTINCT in cascade_recalc_stock:
date BETWEEN p_from_date AND p_to_date, each optional filter either NULL
or matched, and imei IS NOT NULL AND imei != ''. -/
def eventInScope (pfrom pto : Nat) (ploc pmodel : Option Nat) (pimei : Option String)
    (e : StockEvent) : Bool :=
  decide (pfrom ≤ e.date) && decide (e.date ≤ pto) &&
  (match ploc with
   | none => true
   | some l => decide (e.location_id = l)) &&
  (match pmodel with
   | none => true
   | some m => decide (e.phone_model_id = m)) &&
  (match pimei with
   | none => true
   | some i => decide (e.imei = some i)) &&
  e.imei.isSome && decide (e.imei ≠ some "")

/-- The (location_id, phone_model_id, imei) triple an in-scope event
contributes to the SELECT DISTINCT (its imei is a some, so getD never
fires on in-scope events). -/
def eventUnit (e : StockEvent) : UnitKey :=
  { location_id := e.location_id, phone_model_id := e.phone_model_id, imei := e.imei.getD "" }

/-- The distinct (location_id, phone_model_id, imei) combinations the
outer FOR loop of cascade_recalc_stock iterates over. -/
def affectedUnits (events : List StockEvent) (pfrom pto : Nat)
    (ploc pmodel : Option Nat) (pimei : Option String) : List UnitKey :=
  ((events.filter (eventInScope pfrom pto ploc pmodel pimei)).map eventUnit).dedup

/-- WHERE clause of the per-day aggregation: date = d AND location_id,
phone_model_id, imei equal to the current unit's. -/
def eventAtUnitDay (u : UnitKey) (d : Nat) (e : StockEvent) : Bool :=
  decide (e.date = d) && decide (e.location_id = u.location_id) &&
  decide (e.phone_model_id = u.phone_model_id) && decide (e.imei = some u.imei)

/-- CASE WHEN event_type = 'masuk' THEN qty ELSE 0 END. -/
def masukVal (e : StockEvent) : Int :=
  if e.event_type = EventType.masuk then e.qty else 0

/-- CASE WHEN event_type = 'laku' THEN qty ELSE 0 END. -/
def lakuVal (e : StockEvent) : Int :=
  if e.event_type = EventType.laku then e.qty else 0

/-- CASE WHEN event_type = 'retur_in' THEN qty ELSE 0 END. -/
def returVal (e : StockEvent) : Int :=
  if e.event_type = EventType.retur_in then e.qty else 0

/-- CASE WHEN event_type IN ('retur_out','transfer_out') THEN -qty WHEN
'transfer_in' THEN qty WHEN 'koreksi' THEN qty ELSE 0 END; the catch-all
covers 'masuk', 'laku', 'retur_in' and 'koreksi_pagi'. -/
def adjVal (e : StockEvent) : Int :=
  match e.event_type with
  | EventType.retur_out => -e.qty
  | EventType.transfer_out => -e.qty
  | EventType.transfer_in => e.qty
  | EventType.koreksi => e.qty
  | _ => 0

/-- COALESCE(SUM(masuk qty), 0) over the unit's events of day d. -/
def incomingAgg (events : List StockEvent) (u : UnitKey) (d : Nat) : Int :=
  ((events.filter (eventAtUnitDay u d)).map masukVal).sum

/-- COALESCE(SUM(laku qty), 0) over the unit's events of day d. -/
def soldAgg (events : List StockEvent) (u : UnitKey) (d : Nat) : Int :=
  ((events.filter (eventAtUnitDay u d)).map lakuVal).sum

/-- COALESCE(SUM(retur_in qty), 0) over the unit's events of day d. -/
def returnsAgg (events : List StockEvent) (u : UnitKey) (d : Nat) : Int :=
  ((events.filter (eventAtUnitDay u d)).map returVal).sum

/-- COALESCE(SUM(adjustment CASE), 0) over the unit's events of day d. -/
def adjustmentAgg (events : List StockEvent) (u : UnitKey) (d : Nat) : Int :=
  ((events.filter (eventAtUnitDay u d)).map adjVal).sum

/-- v_morning_stock for day d: when d > p_from_date, COALESCE of the
previous day's night_stock (0 when that row is absent); on the first day
of the window, COALESCE of the morning_stock already stored for d itself
(0 when absent). -/
def morningRead (st : List StockEntry) (pfrom : Nat) (u : UnitKey) (d : Nat) : Int :=
  if pfrom < d then ((lookupEntry st (d - 1) u).map (fun e => e.night_stock)).getD 0
  else ((lookupEntry st d u).map (fun e => e.morning_stock)).getD 0

/-- The stock_entries row the day-loop body builds for unit u on day d
from a given morning stock m: the four same-day aggregates and
v_night_stock := v_morning_stock + v_incoming + v_returns - v_sold +
v_adjustment. -/
def rowFor (events : List StockEvent) (u : UnitKey) (m : Int) (d : Nat) : StockEntry :=
  { date := d
    location_id := u.location_id
    phone_model_id := u.phone_model_id
    imei := u.imei
    morning_stock := m
    incoming := incomingAgg events u d
    sold := soldAgg events u d
    returns := returnsAgg events u d
    adjustment := adjustmentAgg events u d
    night_stock := m + incomingAgg events u d + returnsAgg events u d
      - soldAgg events u d + adjustmentAgg events u d }

/-- The row the day-loop body upserts for unit u on day d, reading the
morning stock from the current state of stock_entries. -/
def mkEntry (events : List StockEvent) (u : UnitKey) (pfrom : Nat)
    (st : List StockEntry) (d : Nat) : StockEntry :=
  rowFor events u (morningRead st pfrom u d) d

/-- Effect of one iteration of the WHILE day loop on stock_entries. -/
def processDay (events : List StockEvent) (u : UnitKey) (pfrom : Nat)
    (st : List StockEntry) (d : Nat) : List StockEntry :=
  upsertEntry st (mkEntry events u pfrom st d)

/-- The days the WHILE loop visits: p_from_date, p_from_date + 1, ...,
p_to_date (empty when p_from_date > p_to_date). -/
def daysRange (pfrom pto : Nat) : List Nat :=
  (List.range (pto + 1 - pfrom)).map (fun k => pfrom + k)

/-- Effect of one unit's complete day walk on stock_entries. -/
def processUnit (events : List StockEvent) (pfrom pto : Nat)
    (st : List StockEntry) (u : UnitKey) : List StockEntry :=
  (daysRange pfrom pto).foldl (processDay events u pfrom) st

/-- One day-loop iteration acting on (stock_entries, v_days_count,
v_entries_count): upsert the day's row and increment both counters. -/
def dayStep (events : List StockEvent) (u : UnitKey) (pfrom : Nat)
    (acc : List StockEntry × Nat × Nat) (d : Nat) : List StockEntry × Nat × Nat :=
  (processDay events u pfrom acc.1 d, acc.2.1 + 1, acc.2.2 + 1)

/-- One outer-loop iteration: the unit's whole day walk with counters. -/
def unitStep (events : List StockEvent) (pfrom pto : Nat)
    (acc : List StockEntry × Nat × Nat) (u : UnitKey) : List StockEntry × Nat × Nat :=
  (daysRange pfrom pto).foldl (dayStep events u pfrom) acc

/-- The error outcomes of the procedure: the RAISE EXCEPTION guarding
p_from_date > p_to_date, and an underlying store failure while upserting
a row (constraint violation, connectivity), which PL/pgSQL propagates
uncaught since the function body has no EXCEPTION clause. -/
inductive RecalcError where
  | invalidRange
  | writeFailure (row : StockEntry)
deriving DecidableEq

/-- cascade_recalc_stock(p_from_date, p_to_date, p_location_id,
p_phone_model_id, p_imei) acting on a stock_entries state, returning the
final state together with (recalculated_days, affected_entries). -/
def cascade_recalc_stock (events : List StockEvent) (pfrom pto : Nat)
    (ploc pmodel : Option Nat) (pimei : Option String)
    (st : List StockEntry) : Except RecalcError (List StockEntry × Nat × Nat) :=
  if pfrom > pto then Except.error RecalcError.invalidRange
  else Except.ok
    ((affectedUnits events pfrom pto ploc pmodel pimei).foldl
      (unitStep events pfrom pto) (st, 0, 0))

/-- The three row-level operations trigger_recalc_on_event_change fires
on, with the rows PL/pgSQL exposes as OLD and NEW. -/
inductive TriggerOp where
  | ins (nrow : StockEvent)
  | upd (orow nrow : StockEvent)
  | del (orow : StockEvent)

/-- The event row trigger_cascade_recalc reads its v_ variables from:
OLD for a DELETE, NEW otherwise. -/
def triggerEvent : TriggerOp → StockEvent
  | TriggerOp.ins nrow => nrow
  | TriggerOp.upd _ nrow => nrow
  | TriggerOp.del orow => orow

/-- trigger_cascade_recalc: PERFORM cascade_recalc_stock(v_date,
CURRENT_DATE, v_location_id, v_phone_model_id, v_imei) in the mutating
transaction; CURRENT_DATE is the explicit parameter today. -/
def trigger_cascade_recalc (op : TriggerOp) (today : Nat) (events : List StockEvent)
    (st : List StockEntry) : Except RecalcError (List StockEntry × Nat × Nat) :=
  cascade_recalc_stock events (triggerEvent op).date today
    (some (triggerEvent op).location_id) (some (triggerEvent op).phone_model_id)
    (triggerEvent op).imei st

/-- One day-loop iteration against a store whose upsert can fail: bad
characterises the rows the store rejects; a rejected upsert raises, which
the function body does not catch. -/
def dayStepF (bad : StockEntry → Bool) (events : List StockEvent) (u : UnitKey)
    (pfrom : Nat) (acc : List StockEntry × Nat × Nat) (d : Nat) :
    Except RecalcError (List StockEntry × Nat × Nat) :=
  if bad (mkEntry events u pfrom acc.1 d) then
    Except.error (RecalcError.writeFailure (mkEntry events u pfrom acc.1 d))
  else
    Except.ok (dayStep events u pfrom acc d)

/-- One unit's day walk against the fallible store. -/
def unitStepF (bad : StockEntry → Bool) (events : List StockEvent) (pfrom pto : Nat)
    (acc : List StockEntry × Nat × Nat) (u : UnitKey) :
    Except RecalcError (List StockEntry × Nat × Nat) :=
  (daysRange pfrom pto).foldlM (dayStepF bad events u pfrom) acc

/-- cascade_recalc_stock against a store whose upserts can fail: the
uncaught exception short-circuits the remaining days and units. -/
def cascade_recalc_stock_fallible (bad : StockEntry → Bool) (events : List StockEvent)
    (pfrom pto : Nat) (ploc pmodel : Option Nat) (pimei : Option String)
    (st : List StockEntry) : Except RecalcError (List StockEntry × Nat × Nat) :=
  if pfrom > pto then Except.error RecalcError.invalidRange
  else (affectedUnits events pfrom pto ploc pmodel pimei).foldlM
    (unitStepF bad events pfrom pto) (st, 0, 0)

/-- The stock_entries state a caller observes after the call: the returned
state on success; on an error the statement's effects are rolled back, so
the caller still sees the initial state. -/
def observableState (init : List StockEntry)
    (r : Except RecalcError (List StockEntry × Nat × Nat)) : List StockEntry :=
  match r with
  | Except.ok out => out.1
  | Except.error _ => init

/-- The morning stock the first day of the window starts from: the stored
morning_stock of the existing row for p_from_date, 0 when absent. -/
def initMorning (st : List StockEntry) (pfrom : Nat) (u : UnitKey) : Int :=
  ((lookupEntry st pfrom u).map (fun e => e.morning_stock)).getD 0

/-- Closed form of the day walk: the row the engine writes for day
pfrom + n, given the morning stock m0 the first day starts from; each
later day's morning stock is the previous day's night_stock. -/
def chainRow (events : List StockEvent) (u : UnitKey) (pfrom : Nat) (m0 : Int) :
    Nat → StockEntry
  | 0 => rowFor events u m0 pfrom
  | n + 1 => rowFor events u (chainRow events u pfrom m0 n).night_stock (pfrom + n + 1)

/-- Whether the unit has a koreksi_pagi event dated on day d. -/
def hasKoreksiPagi (events : List StockEvent) (u : UnitKey) (d : Nat) : Bool :=
  events.any (fun e => eventAtUnitDay u d e && decide (e.event_type = EventType.koreksi_pagi))

/-- Unit used by the concrete scenarios below. -/
def exUnit : UnitKey := ⟨1, 1, "A"⟩

/-- A unit at another location, untouched by the scenarios below. -/
def exOther : UnitKey := ⟨2, 1, "Z"⟩

/-- Scenario: one intake on day 1 and one sale on day 2 for exUnit. -/
def exEvents : List StockEvent :=
  [⟨1, 1, 1, some "A", EventType.masuk, 1⟩, ⟨2, 1, 1, some "A", EventType.laku, 1⟩]

/-- Day-1 row the scenario produces. -/
def exRow1 : StockEntry := ⟨1, 1, 1, "A", 0, 1, 0, 0, 0, 1⟩

/-- Day-2 row the scenario produces. -/
def exRow2 : StockEntry := ⟨2, 1, 1, "A", 1, 0, 1, 0, 0, 0⟩

/-- Final stock_entries of the scenario. -/
def exStf : List StockEntry := [exRow1, exRow2]

/-- Pre-state for the morning-correction scenario: exUnit's day-3 row with
inherited opening 1 (and closing 1). -/
def c2State : List StockEntry := [⟨3, 1, 1, "A", 1, 0, 0, 0, 0, 1⟩]

/-- A koreksi_pagi of -1 dated day 3 for exUnit. -/
def c2Events : List StockEvent := [⟨3, 1, 1, some "A", EventType.koreksi_pagi, -1⟩]

/-- Pre-state for the first-day-opening scenario: exUnit has a day-2 row
closing at 5 and no day-3 row. -/
def c3State : List StockEntry := [⟨2, 1, 1, "A", 5, 0, 0, 0, 0, 5⟩]

/-- One intake dated day 3 for exUnit. -/
def c3Events : List StockEvent := [⟨3, 1, 1, some "A", EventType.masuk, 1⟩]

/-- Pre-state holding an existing day-3 row for exUnit with stored
morning_stock 7. -/
def c3StateB : List StockEntry := [⟨3, 1, 1, "A", 7, 0, 0, 0, 0, 7⟩]

/-- The state produced by recalculating day 3 over c3StateB. -/
def c3StfB : List StockEntry := [⟨3, 1, 1, "A", 7, 1, 0, 0, 0, 8⟩]

/-- The second unit of the write-failure scenario. -/
def c8UnitB : UnitKey := ⟨1, 1, "B"⟩

/-- Write-failure scenario: one day-1 intake each for units A and B. -/
def c8Events : List StockEvent :=
  [⟨1, 1, 1, some "A", EventType.masuk, 1⟩, ⟨1, 1, 1, some "B", EventType.masuk, 1⟩]

/-- The store of the write-failure scenario rejects unit B's rows. -/
def c8Bad (r : StockEntry) : Bool := decide (r.imei = "B")

/-- The row whose upsert fails in the write-failure scenario. -/
def c8BadRow : StockEntry := ⟨1, 1, 1, "B", 0, 1, 0, 0, 0, 1⟩

/-- Unit A's day-1 row, committed before the failing upsert. -/
def c8RowA : StockEntry := ⟨1, 1, 1, "A", 0, 1, 0, 0, 0, 1⟩

/-- Unit A's event alone. -/
def c8EventsA : List StockEvent := [⟨1, 1, 1, some "A", EventType.masuk, 1⟩]

/-! ## Key and lookup lemmas -/

theorem entryKey_rowFor (events : List StockEvent) (u : UnitKey) (m : Int) (d : Nat) :
    entryKey (rowFor events u m d) = unitDayKey d u := rfl

theorem unitDayKey_eq_iff (d d2 : Nat) (v u : UnitKey) :
    unitDayKey d v = unitDayKey d2 u ↔ d = d2 ∧ v = u := by
  cases v with
  | mk vl vm vi =>
    cases u with
    | mk ul um ui =>
      simp [unitDayKey]

theorem find?_replace_self (r : StockEntry) :
    ∀ st : List StockEntry, st.any (fun e => decide (entryKey e = entryKey r)) = true →
      (st.map (fun e => if entryKey e = entryKey r then r else e)).find?
        (fun e => decide (entryKey e = entryKey r)) = some r := by
  intro st
  induction st with
  | nil => intro h; simp at h
  | cons a st ih =>
    intro h
    by_cases hk : entryKey a = entryKey r
    · simp [List.find?, hk]
    · have h2 : st.any (fun e => decide (entryKey e = entryKey r)) = true := by
        simpa [List.any_cons, hk] using h
      simpa [List.find?, hk] using ih h2

theorem find?_replace_other (r : StockEntry) (t : Nat × Nat × Nat × String)
    (h : t ≠ entryKey r) :
    ∀ st : List StockEntry,
      (st.map (fun e => if entryKey e = entryKey r then r else e)).find?
        (fun e => decide (entryKey e = t))
      = st.find? (fun e => decide (entryKey e = t)) := by
  intro st
  induction st with
  | nil => rfl
  | cons a st ih =>
    simp only [List.map_cons]
    by_cases hk : entryKey a = entryKey r
    · rw [if_pos hk]
      have h1 : ¬ (entryKey r = t) := fun hh => h hh.symm
      have h2 : ¬ (entryKey a = t) := by rw [hk]; exact h1
      simpa [List.find?_cons, h1, h2] using ih
    · rw [if_neg hk]
      by_cases hpa : entryKey a = t
      · simp [List.find?_cons, hpa]
      · simpa [List.find?_cons, hpa] using ih

theorem lookupKey_append_self (r : StockEntry) :
    ∀ st : List StockEntry, st.any (fun e => decide (entryKey e = entryKey r)) = false →
      lookupKey (st ++ [r]) (entryKey r) = some r := by
  intro st
  induction st with
  | nil => intro _; simp [lookupKey, List.find?]
  | cons a st ih =>
    intro h
    rw [List.any_cons] at h
    have ha : ¬ (entryKey a = entryKey r) := by
      intro hh
      simp [hh] at h
    have h2 : st.any (fun e => decide (entryKey e = entryKey r)) = false := by
      simpa [ha] using h
    simpa [lookupKey, List.find?, ha] using ih h2

theorem lookupKey_append_other (r : StockEntry) (t : Nat × Nat × Nat × String)
    (h : t ≠ entryKey r) :
    ∀ st : List StockEntry, lookupKey (st ++ [r]) t = lookupKey st t := by
  intro st
  induction st with
  | nil =>
    have h1 : ¬ (entryKey r = t) := fun hh => h hh.symm
    simp [lookupKey, List.find?, h1]
  | cons a st ih =>
    by_cases hpa : entryKey a = t
    · simp [lookupKey, List.find?, hpa]
    · simpa [lookupKey, List.find?, hpa] using ih

theorem lookupKey_upsert_self (st : List StockEntry) (r : StockEntry) :
    lookupKey (upsertEntry st r) (entryKey r) = some r := by
  rw [upsertEntry]
  by_cases h : st.any (fun e => decide (entryKey e = entryKey r)) = true
  · rw [if_pos h]
    simpa [lookupKey] using find?_replace_self r st h
  · rw [if_neg h]
    exact lookupKey_append_self r st (by simpa using h)

theorem lookupKey_upsert_other (st : List StockEntry) (r : StockEntry)
    (t : Nat × Nat × Nat × String) (h : t ≠ entryKey r) :
    lookupKey (upsertEntry st r) t = lookupKey st t := by
  rw [upsertEntry]
  by_cases hh : st.any (fun e => decide (entryKey e = entryKey r)) = true
  · rw [if_pos hh]
    simpa [lookupKey] using find?_replace_other r t h st
  · rw [if_neg hh]
    exact lookupKey_append_other r t h st

/-! ## Closed form of one unit's day walk -/

theorem chainRow_succ_morning (events : List StockEvent) (u : UnitKey) (pfrom : Nat)
    (m0 : Int) (n : Nat) :
    (chainRow events u pfrom m0 (n + 1)).morning_stock
      = (chainRow events u pfrom m0 n).night_stock := rfl

theorem chainRow_morning_zero (events : List StockEvent) (u : UnitKey) (pfrom : Nat)
    (m0 : Int) : (chainRow events u pfrom m0 0).morning_stock = m0 := rfl

theorem chainRow_eq_rowFor (events : List StockEvent) (u : UnitKey) (pfrom : Nat)
    (m0 : Int) (n : Nat) :
    chainRow events u pfrom m0 n
      = rowFor events u ((chainRow events u pfrom m0 n).morning_stock) (pfrom + n) := by
  cases n with
  | zero => simp [chainRow, rowFor]
  | succ n => rfl

theorem entryKey_chainRow (events : List StockEvent) (u : UnitKey) (pfrom : Nat)
    (m0 : Int) (n : Nat) :
    entryKey (chainRow events u pfrom m0 n) = unitDayKey (pfrom + n) u := by
  cases n with
  | zero => simp [chainRow, entryKey_rowFor]
  | succ n => rfl

theorem morningRead_first (st : List StockEntry) (pfrom : Nat) (u : UnitKey) :
    morningRead st pfrom u pfrom = initMorning st pfrom u := by
  rw [morningRead, if_neg (Nat.lt_irrefl pfrom)]
  rfl

theorem walk_char (events : List StockEvent) (u : UnitKey) (pfrom : Nat)
    (st : List StockEntry) :
    ∀ n : Nat,
      (∀ t : Nat × Nat × Nat × String,
          (∀ k : Nat, k ≤ n → t ≠ unitDayKey (pfrom + k) u) →
          lookupKey (((List.range (n + 1)).map (fun k => pfrom + k)).foldl
              (processDay events u pfrom) st) t
            = lookupKey st t)
      ∧ (∀ k : Nat, k ≤ n →
          lookupKey (((List.range (n + 1)).map (fun k => pfrom + k)).foldl
              (processDay events u pfrom) st) (unitDayKey (pfrom + k) u)
            = some (chainRow events u pfrom (initMorning st pfrom u) k)) := by
  intro n
  induction n with
  | zero =>
    have hl : ((List.range 1).map (fun k => pfrom + k)).foldl (processDay events u pfrom) st
        = processDay events u pfrom st pfrom := rfl
    have hmk : mkEntry events u pfrom st pfrom
        = chainRow events u pfrom (initMorning st pfrom u) 0 := by
      rw [mkEntry, morningRead_first]
      rfl
    constructor
    · intro t ht
      rw [hl, processDay, hmk]
      apply lookupKey_upsert_other
      rw [entryKey_chainRow]
      exact ht 0 (Nat.le_refl 0)
    · intro k hk
      have hk0 : k = 0 := Nat.le_zero.mp hk
      subst hk0
      rw [hl, processDay, hmk]
      have hs := lookupKey_upsert_self st (chainRow events u pfrom (initMorning st pfrom u) 0)
      rwa [entryKey_chainRow] at hs
  | succ n ih =>
    obtain ⟨ihf, ihl⟩ := ih
    have hsplit : ((List.range (n + 2)).map (fun k => pfrom + k))
        = ((List.range (n + 1)).map (fun k => pfrom + k)) ++ [pfrom + (n + 1)] := by
      rw [List.range_succ, List.map_append]
      rfl
    set st1 := ((List.range (n + 1)).map (fun k => pfrom + k)).foldl
        (processDay events u pfrom) st with hst1
    have hfold : ((List.range (n + 2)).map (fun k => pfrom + k)).foldl
          (processDay events u pfrom) st
        = processDay events u pfrom st1 (pfrom + (n + 1)) := by
      rw [hsplit, List.foldl_append]
      rfl
    have hmorning : morningRead st1 pfrom u (pfrom + (n + 1))
        = (chainRow events u pfrom (initMorning st pfrom u) n).night_stock := by
      rw [morningRead, if_pos (by omega : pfrom < pfrom + (n + 1))]
      rw [show pfrom + (n + 1) - 1 = pfrom + n from by omega]
      rw [show lookupEntry st1 (pfrom + n) u
          = some (chainRow events u pfrom (initMorning st pfrom u) n)
          from ihl n (Nat.le_refl n)]
      rfl
    have hmk : mkEntry events u pfrom st1 (pfrom + (n + 1))
        = chainRow events u pfrom (initMorning st pfrom u) (n + 1) := by
      rw [mkEntry, hmorning]
      rfl
    constructor
    · intro t ht
      rw [hfold, processDay, hmk]
      rw [lookupKey_upsert_other _ _ _
        (by rw [entryKey_chainRow]; exact ht (n + 1) (Nat.le_refl _))]
      exact ihf t (fun k hk => ht k (Nat.le_succ_of_le hk))
    · intro k hk
      rw [hfold, processDay, hmk]
      by_cases hkk : k = n + 1
      · subst hkk
        have hs := lookupKey_upsert_self st1
          (chainRow events u pfrom (initMorning st pfrom u) (n + 1))
        rwa [entryKey_chainRow] at hs
      · have hne : unitDayKey (pfrom + k) u
            ≠ entryKey (chainRow events u pfrom (initMorning st pfrom u) (n + 1)) := by
          rw [entryKey_chainRow]
          intro hcon
          rw [unitDayKey_eq_iff] at hcon
          obtain ⟨h1, -⟩ := hcon
          omega
        rw [lookupKey_upsert_other _ _ _ hne]
        exact ihl k (by omega)

/-! ## Lifting the characterization through the unit loop -/

theorem daysRange_eq (pfrom pto : Nat) (h : pfrom ≤ pto) :
    daysRange pfrom pto = (List.range ((pto - pfrom) + 1)).map (fun k => pfrom + k) := by
  rw [daysRange, show pto + 1 - pfrom = (pto - pfrom) + 1 from by omega]

theorem processUnit_lookup (events : List StockEvent) (u : UnitKey) (pfrom pto : Nat)
    (st : List StockEntry) (h : pfrom ≤ pto) :
    ∀ k : Nat, k ≤ pto - pfrom →
      lookupEntry (processUnit events pfrom pto st u) (pfrom + k) u
        = some (chainRow events u pfrom (initMorning st pfrom u) k) := by
  intro k hk
  rw [processUnit, daysRange_eq pfrom pto h]
  exact (walk_char events u pfrom st (pto - pfrom)).2 k hk

theorem processUnit_frame (events : List StockEvent) (u : UnitKey) (pfrom pto : Nat)
    (st : List StockEntry) (h : pfrom ≤ pto) (d : Nat) (v : UnitKey)
    (hcond : v ≠ u ∨ d < pfrom ∨ pto < d) :
    lookupEntry (processUnit events pfrom pto st u) d v = lookupEntry st d v := by
  rw [processUnit, daysRange_eq pfrom pto h]
  apply (walk_char events u pfrom st (pto - pfrom)).1
  intro k hk hcontra
  rw [unitDayKey_eq_iff] at hcontra
  obtain ⟨h1, h2⟩ := hcontra
  rcases hcond with hv | hd | hd
  · exact hv h2
  · omega
  · omega

theorem unitsFold_frame (events : List StockEvent) (pfrom pto : Nat) (h : pfrom ≤ pto) :
    ∀ (us : List UnitKey) (st : List StockEntry) (d : Nat) (v : UnitKey),
      (v ∉ us ∨ d < pfrom ∨ pto < d) →
      lookupEntry (us.foldl (processUnit events pfrom pto) st) d v = lookupEntry st d v := by
  intro us
  induction us with
  | nil => intro st d v _; rfl
  | cons u us ih =>
    intro st d v hc
    rw [List.foldl_cons]
    have hc2 : v ∉ us ∨ d < pfrom ∨ pto < d := by
      rcases hc with hv | hd | hd
      · exact Or.inl (fun hm => hv (List.mem_cons_of_mem _ hm))
      · exact Or.inr (Or.inl hd)
      · exact Or.inr (Or.inr hd)
    rw [ih (processUnit events pfrom pto st u) d v hc2]
    apply processUnit_frame events u pfrom pto st h d v
    rcases hc with hv | hd | hd
    · refine Or.inl (fun he => hv ?_)
      cases he
      exact List.mem_cons_self u us
    · exact Or.inr (Or.inl hd)
    · exact Or.inr (Or.inr hd)

theorem unitsFold_lookup (events : List StockEvent) (pfrom pto : Nat) (h : pfrom ≤ pto) :
    ∀ us : List UnitKey, us.Nodup → ∀ (st : List StockEntry) (u : UnitKey), u ∈ us →
      ∀ k : Nat, k ≤ pto - pfrom →
        lookupEntry (us.foldl (processUnit events pfrom pto) st) (pfrom + k) u
          = some (chainRow events u pfrom (initMorning st pfrom u) k) := by
  intro us
  induction us with
  | nil => intro _ st u hu; cases hu
  | cons v us ih =>
    intro hnd st u hu k hk
    rw [List.foldl_cons]
    rw [List.nodup_cons] at hnd
    rcases List.mem_cons.mp hu with he | hm
    · subst he
      rw [unitsFold_frame events pfrom pto h us _ _ u (Or.inl hnd.1)]
      exact processUnit_lookup events u pfrom pto st h k hk
    · have hne : u ≠ v := by
        rintro rfl
        exact hnd.1 hm
      have hpre : lookupEntry (processUnit events pfrom pto st v) pfrom u
          = lookupEntry st pfrom u :=
        processUnit_frame events v pfrom pto st h pfrom u (Or.inl hne)
      have him : initMorning (processUnit events pfrom pto st v) pfrom u
          = initMorning st pfrom u := by
        rw [initMorning, initMorning, hpre]
      rw [ih hnd.2 _ u hm k hk, him]

/-! ## Counter bookkeeping of the two loops -/

theorem dayFold_proj (events : List StockEvent) (u : UnitKey) (pfrom : Nat) :
    ∀ (ds : List Nat) (st : List StockEntry) (a b : Nat),
      ds.foldl (dayStep events u pfrom) (st, a, b)
        = (ds.foldl (processDay events u pfrom) st, a + ds.length, b + ds.length) := by
  intro ds
  induction ds with
  | nil => intro st a b; simp
  | cons d ds ih =>
    intro st a b
    rw [List.foldl_cons, List.foldl_cons,
      show dayStep events u pfrom (st, a, b) d = (processDay events u pfrom st d, a + 1, b + 1)
        from rfl,
      ih]
    simp only [List.length_cons, Prod.mk.injEq]
    exact ⟨trivial, by omega, by omega⟩

theorem unitsFold_proj (events : List StockEvent) (pfrom pto : Nat) :
    ∀ (us : List UnitKey) (st : List StockEntry) (a b : Nat),
      us.foldl (unitStep events pfrom pto) (st, a, b)
        = (us.foldl (processUnit events pfrom pto) st,
            a + us.length * (daysRange pfrom pto).length,
            b + us.length * (daysRange pfrom pto).length) := by
  intro us
  induction us with
  | nil => intro st a b; simp
  | cons u us ih =>
    intro st a b
    rw [List.foldl_cons, List.foldl_cons, unitStep, dayFold_proj, ih]
    simp only [List.length_cons, Prod.mk.injEq]
    refine ⟨rfl, ?_, ?_⟩ <;> · rw [Nat.succ_mul]; omega

/-! ## The procedure on a valid range -/

theorem cascade_ok (events : List StockEvent) (pfrom pto : Nat)
    (ploc pmodel : Option Nat) (pimei : Option String) (st : List StockEntry)
    (h : pfrom ≤ pto) :
    cascade_recalc_stock events pfrom pto ploc pmodel pimei st
      = Except.ok
          ((affectedUnits events pfrom pto ploc pmodel pimei).foldl
              (processUnit events pfrom pto) st,
            (affectedUnits events pfrom pto ploc pmodel pimei).length * (pto + 1 - pfrom),
            (affectedUnits events pfrom pto ploc pmodel pimei).length * (pto + 1 - pfrom)) := by
  rw [cascade_recalc_stock, if_neg (by omega : ¬ pfrom > pto), unitsFold_proj]
  have hL : (daysRange pfrom pto).length = pto + 1 - pfrom := by
    simp [daysRange]
  rw [hL]
  simp

theorem cascade_ok_inv (events : List StockEvent) (pfrom pto : Nat)
    (ploc pmodel : Option Nat) (pimei : Option String) (st stf : List StockEntry)
    (dc ec : Nat)
    (h : cascade_recalc_stock events pfrom pto ploc pmodel pimei st
      = Except.ok (stf, dc, ec)) :
    pfrom ≤ pto
    ∧ stf = (affectedUnits events pfrom pto ploc pmodel pimei).foldl
        (processUnit events pfrom pto) st
    ∧ dc = (affectedUnits events pfrom pto ploc pmodel pimei).length * (pto + 1 - pfrom)
    ∧ ec = (affectedUnits events pfrom pto ploc pmodel pimei).length * (pto + 1 - pfrom) := by
  by_cases hle : pfrom > pto
  · rw [cascade_recalc_stock, if_pos hle] at h
    cases h
  · have h2 := h
    rw [cascade_ok events pfrom pto ploc pmodel pimei st (by omega)] at h2
    simp only [Except.ok.injEq, Prod.mk.injEq] at h2
    exact ⟨by omega, h2.1.symm, h2.2.1.symm, h2.2.2.symm⟩

/-! ## The affected-unit set -/

theorem mem_affectedUnits (events : List StockEvent) (pfrom pto : Nat)
    (ploc pmodel : Option Nat) (pimei : Option String) (u : UnitKey) :
    u ∈ affectedUnits events pfrom pto ploc pmodel pimei ↔
      ∃ e, e ∈ events ∧ eventInScope pfrom pto ploc pmodel pimei e = true
        ∧ eventUnit e = u := by
  rw [affectedUnits, List.mem_dedup, List.mem_map]
  constructor
  · rintro ⟨e, he, rfl⟩
    rw [List.mem_filter] at he
    exact ⟨e, he.1, he.2, rfl⟩
  · rintro ⟨e, he, hs, rfl⟩
    exact ⟨e, List.mem_filter.mpr ⟨he, hs⟩, rfl⟩

theorem nodup_affectedUnits (events : List StockEvent) (pfrom pto : Nat)
    (ploc pmodel : Option Nat) (pimei : Option String) :
    (affectedUnits events pfrom pto ploc pmodel pimei).Nodup :=
  List.nodup_dedup _

theorem eventInScope_imei (pfrom pto : Nat) (ploc pmodel : Option Nat)
    (pimei : Option String) (e : StockEvent)
    (hs : eventInScope pfrom pto ploc pmodel pimei e = true) :
    (eventUnit e).imei ≠ "" := by
  simp only [eventInScope] at hs
  simp only [Bool.and_eq_true] at hs
  obtain ⟨⟨-, hsome⟩, hne⟩ := hs
  cases hx : e.imei with
  | none => rw [hx] at hsome; simp at hsome
  | some s =>
    rw [hx] at hne
    rw [eventUnit, hx]
    simp only [Option.getD_some]
    simp only [decide_eq_true_eq] at hne
    intro hcon
    exact hne (by rw [hcon])

theorem eventInScope_loc (pfrom pto : Nat) (l : Nat) (pmodel : Option Nat)
    (pimei : Option String) (e : StockEvent)
    (hs : eventInScope pfrom pto (some l) pmodel pimei e = true) :
    (eventUnit e).location_id = l := by
  simp only [eventInScope] at hs
  simp only [Bool.and_eq_true] at hs
  obtain ⟨⟨⟨⟨⟨-, hl⟩, -⟩, -⟩, -⟩, -⟩ := hs
  simp only [decide_eq_true_eq] at hl
  exact hl

/-! ## First-day morning stock after a run -/

theorem initMorning_after (events : List StockEvent) (pfrom pto : Nat)
    (ploc pmodel : Option Nat) (pimei : Option String) (st : List StockEntry)
    (u : UnitKey) (hle : pfrom ≤ pto)
    (hu : u ∈ affectedUnits events pfrom pto ploc pmodel pimei) :
    initMorning ((affectedUnits events pfrom pto ploc pmodel pimei).foldl
        (processUnit events pfrom pto) st) pfrom u
      = initMorning st pfrom u := by
  have h0 := unitsFold_lookup events pfrom pto hle _
    (nodup_affectedUnits events pfrom pto ploc pmodel pimei) st u hu 0 (Nat.zero_le _)
  rw [Nat.add_zero] at h0
  rw [initMorning, h0]
  rfl

/-! ## koreksi_pagi is invisible to the same-day aggregation -/

theorem adjustmentAgg_filter_koreksi_pagi (events : List StockEvent) (u : UnitKey) (d : Nat) :
    adjustmentAgg (events.filter (fun e => !decide (e.event_type = EventType.koreksi_pagi))) u d
      = adjustmentAgg events u d := by
  induction events with
  | nil => rfl
  | cons e es ih =>
    by_cases hk : e.event_type = EventType.koreksi_pagi
    · have hz : adjVal e = 0 := by simp [adjVal, hk]
      by_cases ha : eventAtUnitDay u d e = true
      · simp [adjustmentAgg, List.filter_cons, hk, ha, hz] at ih ⊢
        exact ih
      · simp [adjustmentAgg, List.filter_cons, hk, ha] at ih ⊢
        exact ih
    · by_cases ha : eventAtUnitDay u d e = true
      · simp [adjustmentAgg, List.filter_cons, hk, ha] at ih ⊢
        rw [ih]
      · simp [adjustmentAgg, List.filter_cons, hk, ha] at ih ⊢
        exact ih

/-! ## The fallible store agrees with cascade_recalc_stock when nothing fails -/

theorem dayFoldM_nofail (events : List StockEvent) (u : UnitKey) (pfrom : Nat) :
    ∀ (ds : List Nat) (acc : List StockEntry × Nat × Nat),
      ds.foldlM (dayStepF (fun _ => false) events u pfrom) acc
        = Except.ok (ds.foldl (dayStep events u pfrom) acc) := by
  intro ds
  induction ds with
  | nil => intro acc; rfl
  | cons d ds ih =>
    intro acc
    rw [List.foldlM_cons, List.foldl_cons,
      show dayStepF (fun _ => false) events u pfrom acc d
        = Except.ok (dayStep events u pfrom acc d) from rfl]
    exact ih (dayStep events u pfrom acc d)

theorem unitsFoldM_nofail (events : List StockEvent) (pfrom pto : Nat) :
    ∀ (us : List UnitKey) (acc : List StockEntry × Nat × Nat),
      us.foldlM (unitStepF (fun _ => false) events pfrom pto) acc
        = Except.ok (us.foldl (unitStep events pfrom pto) acc) := by
  intro us
  induction us with
  | nil => intro acc; rfl
  | cons u us ih =>
    intro acc
    rw [List.foldlM_cons, List.foldl_cons,
      show unitStepF (fun _ => false) events pfrom pto acc u
        = Except.ok (unitStep events pfrom pto acc u) from by
          rw [unitStepF, dayFoldM_nofail]
          rfl]
    exact ih (unitStep events pfrom pto acc u)

/-! ## The claims -/

/-- Claim C1: for every affected unit and every day in the recalculation
range, the row written has incoming = the sum of masuk quantities dated
that day, sold = the sum of laku quantities, returned = the sum of
retur_in quantities, net adjustment = the signed sum negating retur_out
and transfer_out, adding transfer_in and the signed koreksi quantities
(koreksi_pagi contributes nothing to the same-day aggregates), and
closing = opening + incoming + returned - sold + net adjustment. -/
theorem recalc_day_row_spec (events : List StockEvent) (pfrom pto : Nat)
    (ploc pmodel : Option Nat) (pimei : Option String) (st stf : List StockEntry)
    (dc ec : Nat)
    (h : cascade_recalc_stock events pfrom pto ploc pmodel pimei st
      = Except.ok (stf, dc, ec))
    (u : UnitKey) (hu : u ∈ affectedUnits events pfrom pto ploc pmodel pimei)
    (d : Nat) (hd1 : pfrom ≤ d) (hd2 : d ≤ pto) :
    (∃ r, lookupEntry stf d u = some r
      ∧ r.incoming = incomingAgg events u d
      ∧ r.sold = soldAgg events u d
      ∧ r.returns = returnsAgg events u d
      ∧ r.adjustment = adjustmentAgg events u d
      ∧ r.night_stock = r.morning_stock + r.incoming + r.returns - r.sold + r.adjustment)
    ∧ adjustmentAgg
        (events.filter (fun e => !decide (e.event_type = EventType.koreksi_pagi))) u d
      = adjustmentAgg events u d := by
  obtain ⟨hle, hstf, -, -⟩ :=
    cascade_ok_inv events pfrom pto ploc pmodel pimei st stf dc ec h
  subst hstf
  have hlook := unitsFold_lookup events pfrom pto hle _
    (nodup_affectedUnits events pfrom pto ploc pmodel pimei) st u hu (d - pfrom) (by omega)
  rw [show pfrom + (d - pfrom) = d from by omega] at hlook
  have hr := chainRow_eq_rowFor events u pfrom (initMorning st pfrom u) (d - pfrom)
  rw [show pfrom + (d - pfrom) = d from by omega] at hr
  refine ⟨⟨chainRow events u pfrom (initMorning st pfrom u) (d - pfrom), hlook,
      ?_, ?_, ?_, ?_, ?_⟩,
    adjustmentAgg_filter_koreksi_pagi events u d⟩
  all_goals (rw [hr]; rfl)

/-- Claim C2, evaluated on the code: a koreksi_pagi of -1 dated day 3 for
a unit whose stored day-3 row opens at 1 leaves opening 1 and closing 1.
The claim expects opening 0: cascade_recalc_stock never applies
koreksi_pagi events to the opening balance (they fall into the catch-all
branch of the aggregation CASE and are read nowhere else), although the
repository's own alignment document states morning stock = previous night
stock + koreksi_pagi. -/
theorem koreksi_pagi_ignored :
    hasKoreksiPagi c2Events exUnit 3 = true
    ∧ (lookupEntry (observableState c2State
          (cascade_recalc_stock c2Events 3 3 none none none c2State)) 3 exUnit).map
        (fun e => e.morning_stock) = some 1
    ∧ (lookupEntry (observableState c2State
          (cascade_recalc_stock c2Events 3 3 none none none c2State)) 3 exUnit).map
        (fun e => e.morning_stock) ≠ some 0
    ∧ (lookupEntry (observableState c2State
          (cascade_recalc_stock c2Events 3 3 none none none c2State)) 3 exUnit).map
        (fun e => e.night_stock) = some 1 :=
  ⟨by decide, by decide, by decide, by decide⟩

/-- Claim C3 counterexample: the first day (day 3) of the window has no
stored row while the prior day's row closes at 5; the engine writes
opening 0 for day 3, not the prior day's closing 5. -/
theorem first_day_opening_cex :
    lookupEntry c3State 3 exUnit = none
    ∧ (lookupEntry c3State 2 exUnit).map (fun e => e.night_stock) = some 5
    ∧ (lookupEntry (observableState c3State
          (cascade_recalc_stock c3Events 3 3 none none none c3State)) 3 exUnit).map
        (fun e => e.morning_stock) = some 0
    ∧ (lookupEntry (observableState c3State
          (cascade_recalc_stock c3Events 3 3 none none none c3State)) 3 exUnit).map
        (fun e => e.morning_stock) ≠ some 5 :=
  ⟨by decide, by decide, by decide, by decide⟩

/-- Claim C3 (amended): for every affected unit, the opening written for
the first day of the window equals the morning_stock already stored for
fromDate when such a row exists, and 0 otherwise; the prior calendar
day's closing is not consulted for the first day. -/
theorem first_day_opening_spec (events : List StockEvent) (pfrom pto : Nat)
    (ploc pmodel : Option Nat) (pimei : Option String) (st stf : List StockEntry)
    (dc ec : Nat)
    (h : cascade_recalc_stock events pfrom pto ploc pmodel pimei st
      = Except.ok (stf, dc, ec))
    (u : UnitKey) (hu : u ∈ affectedUnits events pfrom pto ploc pmodel pimei) :
    (lookupEntry stf pfrom u).map (fun e => e.morning_stock)
      = some (((lookupEntry st pfrom u).map (fun e => e.morning_stock)).getD 0) := by
  obtain ⟨hle, hstf, -, -⟩ :=
    cascade_ok_inv events pfrom pto ploc pmodel pimei st stf dc ec h
  subst hstf
  have h0 := unitsFold_lookup events pfrom pto hle _
    (nodup_affectedUnits events pfrom pto ploc pmodel pimei) st u hu 0 (Nat.zero_le _)
  rw [Nat.add_zero] at h0
  rw [h0]
  rfl

/-- Claim C4: chain continuity. For consecutive days d and d + 1 both in
the recalculated range (and no koreksi_pagi dated d + 1, a hypothesis the
code in fact never consults), the closing written for day d equals the
opening written for day d + 1. -/
theorem chain_continuity (events : List StockEvent) (pfrom pto : Nat)
    (ploc pmodel : Option Nat) (pimei : Option String) (st stf : List StockEntry)
    (dc ec : Nat)
    (h : cascade_recalc_stock events pfrom pto ploc pmodel pimei st
      = Except.ok (stf, dc, ec))
    (u : UnitKey) (hu : u ∈ affectedUnits events pfrom pto ploc pmodel pimei)
    (d : Nat) (hd1 : pfrom ≤ d) (hd2 : d + 1 ≤ pto)
    (_hnk : hasKoreksiPagi events u (d + 1) = false) :
    (lookupEntry stf d u).map (fun e => e.night_stock)
      = (lookupEntry stf (d + 1) u).map (fun e => e.morning_stock) := by
  obtain ⟨hle, hstf, -, -⟩ :=
    cascade_ok_inv events pfrom pto ploc pmodel pimei st stf dc ec h
  subst hstf
  have h1 := unitsFold_lookup events pfrom pto hle _
    (nodup_affectedUnits events pfrom pto ploc pmodel pimei) st u hu (d - pfrom) (by omega)
  have h2 := unitsFold_lookup events pfrom pto hle _
    (nodup_affectedUnits events pfrom pto ploc pmodel pimei) st u hu
    (d - pfrom + 1) (by omega)
  rw [show pfrom + (d - pfrom) = d from by omega] at h1
  rw [show pfrom + (d - pfrom + 1) = d + 1 from by omega] at h2
  rw [h1, h2]
  rfl

/-- Claim C5: idempotence. Re-running the same range, filters and events
over the state a first run produced returns the same counters and leaves
every (date, unit) lookup of the Daily Balance state unchanged. -/
theorem recalc_idempotent (events : List StockEvent) (pfrom pto : Nat)
    (ploc pmodel : Option Nat) (pimei : Option String) (st st1 : List StockEntry)
    (dc ec : Nat)
    (h : cascade_recalc_stock events pfrom pto ploc pmodel pimei st
      = Except.ok (st1, dc, ec)) :
    ∃ st2, cascade_recalc_stock events pfrom pto ploc pmodel pimei st1
        = Except.ok (st2, dc, ec)
      ∧ ∀ (d : Nat) (u : UnitKey), lookupEntry st2 d u = lookupEntry st1 d u := by
  obtain ⟨hle, hstf, hdc, hec⟩ :=
    cascade_ok_inv events pfrom pto ploc pmodel pimei st st1 dc ec h
  subst hstf
  refine ⟨(affectedUnits events pfrom pto ploc pmodel pimei).foldl
      (processUnit events pfrom pto)
      ((affectedUnits events pfrom pto ploc pmodel pimei).foldl
        (processUnit events pfrom pto) st), ?_, ?_⟩
  · rw [hdc, hec]
    exact cascade_ok events pfrom pto ploc pmodel pimei _ hle
  intro d u
  by_cases hu : u ∈ affectedUnits events pfrom pto ploc pmodel pimei
  · by_cases hd : pfrom ≤ d ∧ d ≤ pto
    · obtain ⟨hd1, hd2⟩ := hd
      have h2 := unitsFold_lookup events pfrom pto hle _
        (nodup_affectedUnits events pfrom pto ploc pmodel pimei)
        ((affectedUnits events pfrom pto ploc pmodel pimei).foldl
          (processUnit events pfrom pto) st) u hu (d - pfrom) (by omega)
      have h3 := unitsFold_lookup events pfrom pto hle _
        (nodup_affectedUnits events pfrom pto ploc pmodel pimei) st u hu
        (d - pfrom) (by omega)
      rw [show pfrom + (d - pfrom) = d from by omega] at h2 h3
      rw [h2, h3, initMorning_after events pfrom pto ploc pmodel pimei st u hle hu]
    · have hout : d < pfrom ∨ pto < d := by omega
      exact unitsFold_frame events pfrom pto hle _ _ d u (Or.inr hout)
  · exact unitsFold_frame events pfrom pto hle _ _ d u (Or.inl hu)

/-- Claim C6: on insert and update the trigger recalculates from NEW's
date to today with NEW's location, model and imei as the filters; on
delete it uses OLD, the row before removal, in the same way. -/
theorem trigger_recalc_args (orow nrow : StockEvent) (today : Nat)
    (events : List StockEvent) (st : List StockEntry) :
    trigger_cascade_recalc (TriggerOp.del orow) today events st
        = cascade_recalc_stock events orow.date today (some orow.location_id)
            (some orow.phone_model_id) orow.imei st
    ∧ trigger_cascade_recalc (TriggerOp.ins nrow) today events st
        = cascade_recalc_stock events nrow.date today (some nrow.location_id)
            (some nrow.phone_model_id) nrow.imei st
    ∧ trigger_cascade_recalc (TriggerOp.upd orow nrow) today events st
        = cascade_recalc_stock events nrow.date today (some nrow.location_id)
            (some nrow.phone_model_id) nrow.imei st :=
  ⟨rfl, rfl, rfl⟩

/-- Claim C7: a call with fromDate > toDate fails with the invalid-range
error and the observable Daily Balance state is the initial one: the
rejection precedes every read and write. -/
theorem invalid_range_rejected (events : List StockEvent) (pfrom pto : Nat)
    (ploc pmodel : Option Nat) (pimei : Option String) (st : List StockEntry)
    (h : pfrom > pto) :
    cascade_recalc_stock events pfrom pto ploc pmodel pimei st
        = Except.error RecalcError.invalidRange
    ∧ observableState st (cascade_recalc_stock events pfrom pto ploc pmodel pimei st)
        = st := by
  have he : cascade_recalc_stock events pfrom pto ploc pmodel pimei st
      = Except.error RecalcError.invalidRange := by
    rw [cascade_recalc_stock, if_pos h]
  exact ⟨he, by rw [he]; rfl⟩

/-- Claim C8 (amended): against a store that never fails, the fallible run
is exactly cascade_recalc_stock; when any upsert fails, the uncaught
error aborts the whole call and the caller observes the initial state -
the writes of every unit are rolled back and no error is accumulated. -/
theorem write_failure_semantics (events : List StockEvent) (pfrom pto : Nat)
    (ploc pmodel : Option Nat) (pimei : Option String) (st : List StockEntry) :
    cascade_recalc_stock_fallible (fun _ => false) events pfrom pto ploc pmodel pimei st
        = cascade_recalc_stock events pfrom pto ploc pmodel pimei st
    ∧ ∀ (bad : StockEntry → Bool) (err : RecalcError),
        cascade_recalc_stock_fallible bad events pfrom pto ploc pmodel pimei st
          = Except.error err →
        observableState st
            (cascade_recalc_stock_fallible bad events pfrom pto ploc pmodel pimei st)
          = st := by
  constructor
  · rw [cascade_recalc_stock_fallible, cascade_recalc_stock]
    by_cases h : pfrom > pto
    · rw [if_pos h, if_pos h]
    · rw [if_neg h, if_neg h, unitsFoldM_nofail]
  · intro bad err he
    rw [he]
    rfl

/-- Claim C8 counterexample: units A and B are both affected, the store
rejects unit B's row, and the call errors out: unit A's already upserted
day does not survive in the observable state (everything the call wrote
is rolled back) and no aggregate of errors is produced - although unit A
alone recalculates fine against the same store. -/
theorem write_failure_isolation_cex :
    cascade_recalc_stock_fallible c8Bad c8Events 1 1 none none none []
        = Except.error (RecalcError.writeFailure c8BadRow)
    ∧ lookupEntry (observableState []
        (cascade_recalc_stock_fallible c8Bad c8Events 1 1 none none none [])) 1 exUnit
        = none
    ∧ cascade_recalc_stock_fallible c8Bad c8EventsA 1 1 none none none []
        = Except.ok ([c8RowA], 1, 1) :=
  ⟨rfl, rfl, rfl⟩

/-- Claim C9: frame and scoping. Units outside the affected set keep
every lookup unchanged; every affected unit arises from an in-scope event
and has a non-empty imei; with a location filter every affected unit is
at that location; and the rows written for affected units depend only on
the stored fromDate rows of those same units, so nothing else is read. -/
theorem recalc_frame (events : List StockEvent) (pfrom pto : Nat)
    (ploc pmodel : Option Nat) (pimei : Option String) (st stf : List StockEntry)
    (dc ec : Nat)
    (h : cascade_recalc_stock events pfrom pto ploc pmodel pimei st
      = Except.ok (stf, dc, ec)) :
    (∀ u, u ∉ affectedUnits events pfrom pto ploc pmodel pimei →
        ∀ d, lookupEntry stf d u = lookupEntry st d u)
    ∧ (∀ u, u ∈ affectedUnits events pfrom pto ploc pmodel pimei →
        (∃ e, e ∈ events ∧ eventInScope pfrom pto ploc pmodel pimei e = true
          ∧ eventUnit e = u) ∧ u.imei ≠ "")
    ∧ (∀ l, ploc = some l →
        ∀ u, u ∈ affectedUnits events pfrom pto ploc pmodel pimei →
          u.location_id = l)
    ∧ (∀ (st2 stf2 : List StockEntry) (dc2 ec2 : Nat),
        cascade_recalc_stock events pfrom pto ploc pmodel pimei st2
          = Except.ok (stf2, dc2, ec2) →
        (∀ u, u ∈ affectedUnits events pfrom pto ploc pmodel pimei →
            lookupEntry st2 pfrom u = lookupEntry st pfrom u) →
        ∀ u, u ∈ affectedUnits events pfrom pto ploc pmodel pimei →
          ∀ d, pfrom ≤ d → d ≤ pto → lookupEntry stf2 d u = lookupEntry stf d u) := by
  obtain ⟨hle, hstf, -, -⟩ :=
    cascade_ok_inv events pfrom pto ploc pmodel pimei st stf dc ec h
  subst hstf
  refine ⟨?_, ?_, ?_, ?_⟩
  · intro u hu d
    exact unitsFold_frame events pfrom pto hle _ st d u (Or.inl hu)
  · intro u hu
    obtain ⟨e, he, hs, heq⟩ :=
      (mem_affectedUnits events pfrom pto ploc pmodel pimei u).mp hu
    exact ⟨⟨e, he, hs, heq⟩, heq ▸ eventInScope_imei pfrom pto ploc pmodel pimei e hs⟩
  · intro l hl u hu
    subst hl
    obtain ⟨e, he, hs, heq⟩ :=
      (mem_affectedUnits events pfrom pto (some l) pmodel pimei u).mp hu
    exact heq ▸ eventInScope_loc pfrom pto l pmodel pimei e hs
  · intro st2 stf2 dc2 ec2 h2 hagree u hu d hd1 hd2
    obtain ⟨-, hstf2, -, -⟩ :=
      cascade_ok_inv events pfrom pto ploc pmodel pimei st2 stf2 dc2 ec2 h2
    subst hstf2
    have ha := unitsFold_lookup events pfrom pto hle _
      (nodup_affectedUnits events pfrom pto ploc pmodel pimei) st2 u hu
      (d - pfrom) (by omega)
    have hb := unitsFold_lookup events pfrom pto hle _
      (nodup_affectedUnits events pfrom pto ploc pmodel pimei) st u hu
      (d - pfrom) (by omega)
    rw [show pfrom + (d - pfrom) = d from by omega] at ha hb
    have him : initMorning st2 pfrom u = initMorning st pfrom u := by
      rw [initMorning, initMorning, hagree u hu]
    rw [ha, hb, him]

/-- Claim C10: both returned counters equal the number of affected units
times the number of days of the range, and every affected unit has a row
for every day of the range, keyed by that day and the unit's identity. -/
theorem recalc_counts (events : List StockEvent) (pfrom pto : Nat)
    (ploc pmodel : Option Nat) (pimei : Option String) (st stf : List StockEntry)
    (dc ec : Nat)
    (h : cascade_recalc_stock events pfrom pto ploc pmodel pimei st
      = Except.ok (stf, dc, ec)) :
    dc = ec
    ∧ dc = (affectedUnits events pfrom pto ploc pmodel pimei).length * (pto + 1 - pfrom)
    ∧ ∀ u, u ∈ affectedUnits events pfrom pto ploc pmodel pimei →
        ∀ d, pfrom ≤ d → d ≤ pto →
          ∃ r, lookupEntry stf d u = some r ∧ r.date = d
            ∧ r.location_id = u.location_id ∧ r.phone_model_id = u.phone_model_id
            ∧ r.imei = u.imei := by
  obtain ⟨hle, hstf, hdc, hec⟩ :=
    cascade_ok_inv events pfrom pto ploc pmodel pimei st stf dc ec h
  subst hstf
  refine ⟨by rw [hdc, hec], hdc, ?_⟩
  intro u hu d hd1 hd2
  have hlook := unitsFold_lookup events pfrom pto hle _
    (nodup_affectedUnits events pfrom pto ploc pmodel pimei) st u hu (d - pfrom) (by omega)
  rw [show pfrom + (d - pfrom) = d from by omega] at hlook
  have hr := chainRow_eq_rowFor events u pfrom (initMorning st pfrom u) (d - pfrom)
  rw [show pfrom + (d - pfrom) = d from by omega] at hr
  refine ⟨chainRow events u pfrom (initMorning st pfrom u) (d - pfrom), hlook,
    ?_, ?_, ?_, ?_⟩
  all_goals (rw [hr]; rfl)

/-! ## Witnesses -/

/-- Witness for recalc_day_row_spec at the concrete scenario, day 2. -/
theorem recalc_day_row_spec_witness :
    (∃ r, lookupEntry exStf 2 exUnit = some r
      ∧ r.incoming = incomingAgg exEvents exUnit 2
      ∧ r.sold = soldAgg exEvents exUnit 2
      ∧ r.returns = returnsAgg exEvents exUnit 2
      ∧ r.adjustment = adjustmentAgg exEvents exUnit 2
      ∧ r.night_stock = r.morning_stock + r.incoming + r.returns - r.sold + r.adjustment)
    ∧ adjustmentAgg
        (exEvents.filter (fun e => !decide (e.event_type = EventType.koreksi_pagi)))
        exUnit 2
      = adjustmentAgg exEvents exUnit 2 :=
  recalc_day_row_spec exEvents 1 2 none none none [] exStf 2 2 (by rfl) exUnit
    (by decide) 2 (by decide) (by decide)

/-- Witness for first_day_opening_spec at the concrete scenario with a
stored first-day row. -/
theorem first_day_opening_spec_witness :
    (lookupEntry c3StfB 3 exUnit).map (fun e => e.morning_stock)
      = some (((lookupEntry c3StateB 3 exUnit).map (fun e => e.morning_stock)).getD 0) :=
  first_day_opening_spec c3Events 3 3 none none none c3StateB c3StfB 1 1 (by rfl)
    exUnit (by decide)

/-- Witness for chain_continuity at the concrete scenario, days 1 and 2. -/
theorem chain_continuity_witness :
    (lookupEntry exStf 1 exUnit).map (fun e => e.night_stock)
      = (lookupEntry exStf 2 exUnit).map (fun e => e.morning_stock) :=
  chain_continuity exEvents 1 2 none none none [] exStf 2 2 (by rfl) exUnit
    (by decide) 1 (by decide) (by decide) (by decide)

/-- Witness for recalc_idempotent at the concrete scenario. -/
theorem recalc_idempotent_witness :
    ∃ st2, cascade_recalc_stock exEvents 1 2 none none none exStf = Except.ok (st2, 2, 2)
      ∧ ∀ (d : Nat) (u : UnitKey), lookupEntry st2 d u = lookupEntry exStf d u :=
  recalc_idempotent exEvents 1 2 none none none [] exStf 2 2 (by rfl)

/-- Witness for invalid_range_rejected with fromDate 2 and toDate 1. -/
theorem invalid_range_rejected_witness :
    cascade_recalc_stock exEvents 2 1 none none none []
        = Except.error RecalcError.invalidRange
    ∧ observableState [] (cascade_recalc_stock exEvents 2 1 none none none []) = [] :=
  invalid_range_rejected exEvents 2 1 none none none [] (by decide)

/-- Witness for write_failure_semantics at the failing scenario. -/
theorem write_failure_semantics_witness :
    observableState [] (cascade_recalc_stock_fallible c8Bad c8Events 1 1 none none none [])
      = [] :=
  (write_failure_semantics c8Events 1 1 none none none []).2 c8Bad
    (RecalcError.writeFailure c8BadRow) (by rfl)

/-- Witness for recalc_frame: the run of the concrete scenario leaves a
unit at another location untouched. -/
theorem recalc_frame_witness :
    lookupEntry exStf 1 exOther = lookupEntry ([] : List StockEntry) 1 exOther :=
  (recalc_frame exEvents 1 2 none none none [] exStf 2 2 (by rfl)).1 exOther
    (by decide) 1

/-- Witness for recalc_counts at the concrete scenario. -/
theorem recalc_counts_witness :
    (2 = 2 ∧ 2 = (affectedUnits exEvents 1 2 none none none).length * (2 + 1 - 1))
    ∧ ∃ r, lookupEntry exStf 1 exUnit = some r ∧ r.date = 1
        ∧ r.location_id = exUnit.location_id ∧ r.phone_model_id = exUnit.phone_model_id
        ∧ r.imei = exUnit.imei := by
  have hmain := recalc_counts exEvents 1 2 none none none [] exStf 2 2 (by rfl)
  exact ⟨⟨hmain.1, hmain.2.1⟩, hmain.2.2 exUnit (by decide) 1 (by decide) (by decide)⟩
